import Mathlib

/-!
Verification development for the gosnmp client library (BER codec for SNMP
messages and the UDP request/response transaction engine).

Shallow embedding conventions:
* Go byte strings are `List Nat` with each element intended `< 256`;
  Go `byte(e)` conversions appear as explicit `% 256` (on `Int`, `Int.emod`
  produces the two's-complement low byte).
* Fallible Go code returns `Except MErr _`; a Go panic is the distinguished
  error `MErr.mPanic`, which the transaction engine's deferred recover turns
  into `SendErr.recoverPanic`.
* OIDs are carried as their subidentifier sequences (`List Nat`); the purely
  syntactic dotted-string conversion is elided.
-/

namespace Gosnmp

/-! ## Constants (marshal.go, msg sources) -/

/-- PDUType wire byte: Sequence 0x30. -/
def Sequence : Nat := 0x30

/-- PDUType wire byte: GetRequest 0xa0. -/
def GetRequest : Nat := 0xa0

/-- PDUType wire byte: GetNextRequest 0xa1. -/
def GetNextRequest : Nat := 0xa1

/-- PDUType wire byte: GetResponse 0xa2. -/
def GetResponse : Nat := 0xa2

/-- PDUType wire byte: SetRequest 0xa3. -/
def SetRequest : Nat := 0xa3

/-- PDUType wire byte: GetBulkRequest 0xa5. -/
def GetBulkRequest : Nat := 0xa5

/-- Asn1BER tag byte: Integer 0x02. -/
def Integer : Nat := 0x02

/-- Asn1BER tag byte: OctetString 0x04. -/
def OctetString : Nat := 0x04

/-- Asn1BER tag byte: Null 0x05. -/
def Null : Nat := 0x05

/-- Asn1BER tag byte: ObjectIdentifier 0x06. -/
def ObjectIdentifier : Nat := 0x06

/-- maxOids: the maximum number of oids allowed in a Get(). -/
def maxOids : Nat := 60

/-! ## Data model -/

/-- The dynamic type of a Go `interface\x7b\x7d` value stored in `SnmpPDU.Value`,
restricted to the variants the claims exercise.  Only `vInt` satisfies the
unchecked type assertion `pdu.Value.(int)` in `marshalVarbind`. -/
inductive GoValue where
  | vNil : GoValue
  | vInt (i : Int) : GoValue
  | vInt64 (i : Int) : GoValue
  | vUint32 (n : Nat) : GoValue
  deriving DecidableEq, Repr

/-- SnmpPDU: one varbind.  `Name` holds the OID's subidentifier sequence
(the Go field is the dotted string; the string/sequence conversion is purely
syntactic and elided). -/
structure SnmpPDU where
  Name : List Nat
  Typ : Nat
  Value : GoValue
  deriving DecidableEq, Repr

/-- SnmpPacket: the SNMP message at the application layer.  The Go uint8/uint32
fields are `Nat`s whose intended ranges are stated in theorems where needed. -/
structure SnmpPacket where
  Version : Nat
  Community : List Nat
  PDUType : Nat
  RequestID : Nat
  Error : Nat
  ErrorIndex : Nat
  NonRepeaters : Nat
  MaxRepetitions : Nat
  Variables : List SnmpPDU
  deriving DecidableEq, Repr

/-- Marshalling errors; `mPanic` models the Go panic raised by the unchecked
type assertion in `marshalVarbind`, the others model `error` return values. -/
inductive MErr where
  | invalidOid : MErr
  | unknownType (t : Nat) : MErr
  | mPanic : MErr
  deriving DecidableEq, Repr

/-! ## Length codec (spec-modelled) -/

/-- Minimal big-endian base-256 digits, structurally recursive on a fuel
bound (the value itself always suffices as fuel). -/
def beBytesAux : Nat → Nat → List Nat
  | 0, _ => []
  | _ + 1, 0 => []
  | fuel + 1, n + 1 => beBytesAux fuel ((n + 1) / 256) ++ [(n + 1) % 256]

/-- Minimal big-endian base-256 digits of `n` (empty for 0). -/
def beBytes (n : Nat) : List Nat := beBytesAux n n

/-- Modelled from the spec: `marshalLength` is not under src/ (only its
callers are).  BER definite-form length: if the length is at most 127, one
byte holding it; otherwise `0x80 + n` followed by the `n` minimal big-endian
bytes of the length. -/
def marshalLength (n : Nat) : List Nat :=
  if n ≤ 127 then [n] else (0x80 + (beBytes n).length) :: beBytes n

/-! ## OID codec (spec-modelled) -/

/-- Big-endian base-128 digits, structurally recursive on a fuel bound. -/
def sevenBitsAux : Nat → Nat → List Nat
  | 0, _ => []
  | _ + 1, 0 => []
  | fuel + 1, n + 1 => sevenBitsAux fuel ((n + 1) / 128) ++ [(n + 1) % 128]

/-- Big-endian base-128 digits of `n` (empty for 0). -/
def sevenBits (n : Nat) : List Nat := sevenBitsAux n n

/-- Base-128 encoding of one subidentifier: high bit set on every
non-terminal byte, minimal byte count, `[0]` for zero. -/
def encodeSubid (n : Nat) : List Nat :=
  let ds := if n = 0 then [0] else sevenBits n
  (ds.dropLast.map (· + 0x80)) ++ [ds.getLastD 0]

/-- Modelled from the spec: `marshalOID` is not under src/ (only its callers
are).  The first output byte packs the first two subidentifiers as
`40*s0 + s1` with `s0` in 0..2 and, when `s0 < 2`, `s1` at most 39;
violations fail with InvalidOid.  Each later subidentifier is base-128
encoded. -/
def marshalOID (oid : List Nat) : Except MErr (List Nat) :=
  match oid with
  | s0 :: s1 :: rest =>
    if s0 > 2 ∨ (s0 < 2 ∧ s1 > 39) then .error .invalidOid
    else .ok ((40 * s0 + s1) :: rest.flatMap encodeSubid)
  | _ => .error .invalidOid

/-! ## Marshalling (marshal.go) -/

/-- The 4 big-endian bytes of a uint32, as written by
`binary.Write(buf, binary.BigEndian, requestid)`. -/
def be32 (r : Nat) : List Nat :=
  [r / 2 ^ 24 % 256, r / 2 ^ 16 % 256, r / 2 ^ 8 % 256, r % 256]

/-- marshalVarbind (marshal.go:191).  The Null case writes
`Sequence, byte(len(oid)+4), ObjectIdentifier, byte(len(oid)), oid, Null, 0`.
The Integer case writes the single byte `byte(pdu.Value.(int))` as the
integer payload; the type assertion panics (`mPanic`) unless the dynamic
type is `int`.  Unknown BER types return an error. -/
def marshalVarbind (pdu : SnmpPDU) : Except MErr (List Nat) :=
  match marshalOID pdu.Name with
  | .error e => .error e
  | .ok oid =>
    if pdu.Typ = Null then
      .ok ([Sequence, (oid.length + 4) % 256, ObjectIdentifier, oid.length % 256]
            ++ oid ++ [Null, 0x00])
    else if pdu.Typ = Integer then
      match pdu.Value with
      | .vInt i =>
        let intBytes : List Nat := [(i % 256).toNat]
        .ok ([Sequence, (oid.length + intBytes.length + 4) % 256,
              ObjectIdentifier, oid.length % 256] ++ oid
             ++ [Integer, intBytes.length % 256] ++ intBytes)
      | _ => .error .mPanic
    else .error (.unknownType pdu.Typ)

/-- The loop body of marshalVBL: concatenate the varbinds in order, stopping
at the first error. -/
def marshalVBLloop : List SnmpPDU → Except MErr (List Nat)
  | [] => .ok []
  | p :: rest =>
    match marshalVarbind p with
    | .error e => .error e
    | .ok vb =>
      match marshalVBLloop rest with
      | .error e => .error e
      | .ok r => .ok (vb ++ r)

/-- marshalVBL (marshal.go:166): wrap the concatenated varbinds in a
Sequence TLV whose length comes from marshalLength. -/
def marshalVBL (pdus : List SnmpPDU) : Except MErr (List Nat) :=
  match marshalVBLloop pdus with
  | .error e => .error e
  | .ok vblBytes => .ok (Sequence :: marshalLength vblBytes.length ++ vblBytes)

/-- The PDU header+varbind-list bytes accumulated in `buf` by marshalPDU
(marshal.go:119) before wrapping: request-id as `2 4 <be32>`, then for
GetBulkRequest `2 1 NonRepeaters, 2 1 MaxRepetitions` and for every other
PDU type the constant bytes `2 1 0, 2 1 0`, then the varbind list. -/
def marshalPDUbuf (packet : SnmpPacket) (pdus : List SnmpPDU) (requestid : Nat) :
    Except MErr (List Nat) :=
  match marshalVBL pdus with
  | .error e => .error e
  | .ok vbl =>
    .ok ([Integer, 4] ++ be32 requestid
         ++ (if packet.PDUType = GetBulkRequest then
               [Integer, 1, packet.NonRepeaters, Integer, 1, packet.MaxRepetitions]
             else
               [Integer, 1, 0, Integer, 1, 0])
         ++ vbl)

/-- marshalPDU (marshal.go:119): the PDU type byte, the marshalLength bytes
of the buffer, then the buffer. -/
def marshalPDU (packet : SnmpPacket) (pdus : List SnmpPDU) (requestid : Nat) :
    Except MErr (List Nat) :=
  match marshalPDUbuf packet pdus requestid with
  | .error e => .error e
  | .ok buf => .ok (packet.PDUType :: marshalLength buf.length ++ buf)

/-- marshalMsg (marshal.go:86): version TLV `2 1 <version>`, community TLV
`4 uint8(len) <community>`, the PDU bytes, wrapped in an outer Sequence with
a marshalLength length.  The `pdutype` argument is unused by the Go body. -/
def marshalMsg (packet : SnmpPacket) (pdus : List SnmpPDU) (_pdutype : Nat)
    (requestID : Nat) : Except MErr (List Nat) :=
  match marshalPDU packet pdus requestID with
  | .error e => .error e
  | .ok pdu =>
    let buf := [Integer, 1, packet.Version]
               ++ [OctetString, packet.Community.length % 256] ++ packet.Community
               ++ pdu
    .ok (Sequence :: marshalLength buf.length ++ buf)

/-! ## Integer value codec, from the spec's words (for comparison with the
source encoder in `marshalVarbind`) -/

/-- The `k` big-endian base-256 digits of `n`. -/
def natToBE (k : Nat) (n : Nat) : List Nat :=
  (List.range k).map (fun j => n / 256 ^ (k - 1 - j) % 256)

/-- The least byte width whose signed range contains `v` (capped at 16). -/
def intWidth (v : Int) : Nat :=
  ((((List.range 16).map (· + 1)).find?
      (fun k => decide (-(2 ^ (8 * k - 1) : Int) ≤ v ∧ v < 2 ^ (8 * k - 1)))).getD 16)

/-- Spec-side reference encoder: the minimal-length two's-complement
big-endian representation of `v` (a leading zero byte only when needed so a
positive value's high bit is 0, a leading 0xFF only to keep a negative
sign). -/
def encodeIntSpec (v : Int) : List Nat :=
  let k := intWidth v
  natToBE k (v % (2 ^ (8 * k) : Nat)).toNat

/-- Spec-side reference decoder: big-endian value, sign-extended from the
high bit of the leading byte. -/
def decodeIntSpec (bs : List Nat) : Int :=
  let u : Nat := bs.foldl (fun acc b => acc * 256 + b) 0
  if 128 ≤ bs.headD 0 then (u : Int) - 2 ^ (8 * bs.length) else (u : Int)

/-! ## Partition helper (part_001:365) -/

/-- Partition: `none` models the Go run-time panic of the expression
`currentPosition % partitionSize` when `partitionSize` is zero (Go integer
division by zero panics); every other path returns the Go boolean.  Go's `%`
is truncated division remainder, i.e. `Int.tmod`. -/
def Partition (currentPosition partitionSize sliceLength : Int) : Option Bool :=
  if currentPosition < 0 ∨ currentPosition ≥ sliceLength then some false
  else if partitionSize = 1 then some true
  else if partitionSize = 0 then none
  else if Int.tmod currentPosition partitionSize = partitionSize - 1 then some true
  else if currentPosition = sliceLength - 1 then some true
  else some false

/-! ## Transaction engine (part_001:121, `send`)

Time is an abstract `Nat` clock.  The network environment supplies, for each
loop iteration, the observation time of that iteration and the outcome of
its write/read/decode phase; a decoded reply is delivered directly as an
`SnmpPacket` (the wire decoding path is outside the marshalled claims). -/

/-- Outcome of one attempt's I/O as supplied by the environment. -/
inductive NetOutcome where
  | writeErr : NetOutcome
  | readErr : NetOutcome
  | decodeErr : NetOutcome
  | reply (pkt : SnmpPacket) : NetOutcome
  deriving DecidableEq, Repr

/-- The distinguishable error results of `send` and its public wrappers. -/
inductive SendErr where
  | connMissing : SendErr
  | timeoutErr (retriesDone : Nat) : SendErr
  | marshalErr (e : MErr) : SendErr
  | writeErrE : SendErr
  | readErrE : SendErr
  | decodeErrE : SendErr
  | emptyErr : SendErr
  | outOfOrderErr : SendErr
  | recoverPanic : SendErr
  | noOutcome : SendErr
  | tooManyOids : SendErr
  | setLenErr : SendErr
  | setTypeErr : SendErr
  deriving DecidableEq, Repr

/-- Result of one `send` call. -/
inductive SendResult where
  | ok (pkt : SnmpPacket) : SendResult
  | err (e : SendErr) : SendResult
  deriving DecidableEq, Repr

/-- Observable trace of a `send` call: the final result, each
`SetDeadline` call as (observation time, deadline), and every request ID
issued (`allReqIDs`). -/
structure SendTrace where
  result : SendResult
  deadlines : List (Nat × Nat)
  reqIDs : List Nat
  deriving DecidableEq, Repr

/-- Environment of one `send` call: the start-of-call clock, whether a
connection is present, and one (time, outcome) pair per loop iteration. -/
structure SendEnv where
  t0 : Nat
  hasConn : Bool
  attempts : List (Nat × NetOutcome)
  deriving DecidableEq, Repr

/-- The retry loop of `send` (part_001:143).  `k` is the Go loop variable
`retries`, `xR` the (clamped) configured retry count, `counter` the atomic
request-ID counter, `ids` the accumulated `allReqIDs`, `lastErr` the `err`
variable at the top of the iteration.  An exhausted environment list yields
the artificial `noOutcome` error (the Go loop would still be waiting on
I/O). -/
def sendAttempts (xR timeout finalDl : Nat) (packet : SnmpPacket)
    (pdus : List SnmpPDU) :
    Nat → Nat → List Nat → Option SendErr → List (Nat × NetOutcome) → SendTrace
  | _, _, ids, _, [] => ⟨.err .noOutcome, [], ids⟩
  | k, counter, ids, lastErr, (t, outc) :: rest =>
    if 0 < k ∧ finalDl < t then ⟨.err (.timeoutErr (k - 1)), [], ids⟩
    else if 0 < k ∧ xR < k then ⟨.err (lastErr.getD .noOutcome), [], ids⟩
    else
      let dl := t + timeout / (xR + 1)
      let reqID := (counter + 1) % 4294967296
      let ids' := ids ++ [reqID]
      match marshalMsg packet pdus packet.PDUType reqID with
      | .error .mPanic => ⟨.err .recoverPanic, [(t, dl)], ids'⟩
      | .error e => ⟨.err (.marshalErr e), [(t, dl)], ids'⟩
      | .ok _ =>
        match outc with
        | .writeErr =>
          let tr := sendAttempts xR timeout finalDl packet pdus (k + 1) reqID ids'
                      (some .writeErrE) rest
          ⟨tr.result, (t, dl) :: tr.deadlines, tr.reqIDs⟩
        | .readErr =>
          let tr := sendAttempts xR timeout finalDl packet pdus (k + 1) reqID ids'
                      (some .readErrE) rest
          ⟨tr.result, (t, dl) :: tr.deadlines, tr.reqIDs⟩
        | .decodeErr =>
          let tr := sendAttempts xR timeout finalDl packet pdus (k + 1) reqID ids'
                      (some .decodeErrE) rest
          ⟨tr.result, (t, dl) :: tr.deadlines, tr.reqIDs⟩
        | .reply pkt =>
          if pkt.Variables.length < 1 then
            let tr := sendAttempts xR timeout finalDl packet pdus (k + 1) reqID ids'
                        (some .emptyErr) rest
            ⟨tr.result, (t, dl) :: tr.deadlines, tr.reqIDs⟩
          else if pkt.RequestID ∈ ids' then ⟨.ok pkt, [(t, dl)], ids'⟩
          else
            let tr := sendAttempts xR timeout finalDl packet pdus (k + 1) reqID ids'
                        (some .outOfOrderErr) rest
            ⟨tr.result, (t, dl) :: tr.deadlines, tr.reqIDs⟩

/-- send (part_001:121): missing-connection check, negative-retries clamp,
absolute deadline `t0 + timeout`, then the retry loop. -/
def send (timeout : Nat) (retries : Int) (counter0 : Nat) (pdus : List SnmpPDU)
    (packetOut : SnmpPacket) (env : SendEnv) : SendTrace :=
  if env.hasConn = false then ⟨.err .connMissing, [], []⟩
  else
    let xR := if retries < 0 then (0 : Nat) else retries.toNat
    sendAttempts xR timeout (env.t0 + timeout) packetOut pdus 0 counter0 [] none
      env.attempts

/-- The pdu slice built by the oid loop shared by Get/GetNext/GetBulk:
append one Null varbind per oid, in order. -/
def getPdus (oids : List (List Nat)) : List SnmpPDU :=
  oids.foldl (fun pdus oid => pdus ++ [⟨oid, Null, .vNil⟩]) []

/-- Get (part_001:220): reject more than maxOids oids before any network
activity, otherwise send a GetRequest packet with one Null varbind per
oid. -/
def Get (community : List Nat) (version timeout : Nat) (retries : Int)
    (counter0 : Nat) (oids : List (List Nat)) (env : SendEnv) : SendTrace :=
  if maxOids < oids.length then ⟨.err .tooManyOids, [], []⟩
  else send timeout retries counter0 (getPdus oids)
    ⟨version, community, GetRequest, 0, 0, 0, 0, 0, []⟩ env

/-- GetNext (part_001:262): identical to Get apart from the PDU type. -/
def GetNext (community : List Nat) (version timeout : Nat) (retries : Int)
    (counter0 : Nat) (oids : List (List Nat)) (env : SendEnv) : SendTrace :=
  if maxOids < oids.length then ⟨.err .tooManyOids, [], []⟩
  else send timeout retries counter0 (getPdus oids)
    ⟨version, community, GetNextRequest, 0, 0, 0, 0, 0, []⟩ env

/-- Set (part_001:243): the shape checks inspect only the slice length and
the static `Typ` field, never the dynamic type of `Value`. -/
def Set (community : List Nat) (version timeout : Nat) (retries : Int)
    (counter0 : Nat) (pdus : List SnmpPDU) (env : SendEnv) : SendTrace :=
  if pdus.length ≠ 1 then ⟨.err .setLenErr, [], []⟩
  else if (pdus.headD ⟨[], 0, .vNil⟩).Typ ≠ Integer then ⟨.err .setTypeErr, [], []⟩
  else send timeout retries counter0 pdus
    ⟨version, community, SetRequest, 0, 0, 0, 0, 0, []⟩ env

/-! ## Theorems -/

/-- Claim C1: the spec asserts that an Integer varbind's value payload is the
minimal-length two's-complement big-endian representation of the value and
that decoding recovers every signed 32-bit value.  The code instead emits the
single truncated byte `byte(pdu.Value.(int))`: at value 300 the payload is
the one byte 44, while the minimal two's-complement representation is
`[1, 44]`, and sign-extending decoding of the emitted byte yields 44, not
300. -/
theorem claim_C1_integer_truncation :
    marshalVarbind ⟨[1, 3], Integer, .vInt 300⟩ =
      .ok [Sequence, 6, ObjectIdentifier, 1, 43, Integer, 1, 44] ∧
    encodeIntSpec 300 = [1, 44] ∧
    ([44] : List Nat) ≠ [1, 44] ∧
    decodeIntSpec [44] = 44 ∧ (44 : Int) ≠ 300 := by
  refine ⟨by rfl, by decide, by decide, by decide, by decide⟩

/-- Claim C2, counterexample: marshalPDU does not emit the packet's `Error`
and `ErrorIndex` fields; it writes the constant bytes `2 1 0, 2 1 0`.  For a
GetRequest packet with `Error = 7` and `ErrorIndex = 9` the emitted PDU holds
zeros at both positions. -/
theorem claim_C2_counterexample :
    marshalPDU ⟨1, [], GetRequest, 0, 7, 9, 0, 0, []⟩ [] 5 =
      .ok [GetRequest, 14, 2, 4, 0, 0, 0, 5, 2, 1, 0, 2, 1, 0, Sequence, 0] ∧
    SnmpPacket.Error ⟨1, [], GetRequest, 0, 7, 9, 0, 0, []⟩ = 7 ∧
    SnmpPacket.ErrorIndex ⟨1, [], GetRequest, 0, 7, 9, 0, 0, []⟩ = 9 := by
  refine ⟨by rfl, by rfl, by rfl⟩

/-- Claim C2, amended: for every packet whose PDU type is not GetBulkRequest,
marshalPDU emits, after the request-id TLV, two one-byte-wide Integer TLVs
holding the constant 0 at the error and error-index positions, regardless of
the packet's `Error` and `ErrorIndex` fields. -/
theorem claim_C2_constant_zero_error_tlvs (p : SnmpPacket) (pdus : List SnmpPDU)
    (rid : Nat) (vbl : List Nat) (hty : p.PDUType ≠ GetBulkRequest)
    (hvbl : marshalVBL pdus = .ok vbl) :
    marshalPDU p pdus rid =
      .ok (p.PDUType :: marshalLength (12 + vbl.length)
           ++ ([Integer, 4] ++ be32 rid ++ [Integer, 1, 0, Integer, 1, 0] ++ vbl)) := by
  unfold marshalPDU marshalPDUbuf
  rw [hvbl]
  simp only [if_neg hty]
  have hlen : ([Integer, 4] ++ be32 rid ++ [Integer, 1, 0, Integer, 1, 0] ++ vbl).length
      = 12 + vbl.length := by
    simp [be32]; omega
  rw [hlen]

/-- Witness for the amended claim C2 at a concrete packet. -/
theorem claim_C2_constant_zero_error_tlvs_witness :
    marshalPDU ⟨1, [], GetRequest, 0, 7, 9, 0, 0, []⟩ [] 5 =
      .ok ((GetRequest : Nat) :: marshalLength (12 + [Sequence, 0].length)
           ++ ([Integer, 4] ++ be32 5 ++ [Integer, 1, 0, Integer, 1, 0] ++ [Sequence, 0])) :=
  claim_C2_constant_zero_error_tlvs ⟨1, [], GetRequest, 0, 7, 9, 0, 0, []⟩ [] 5
    [Sequence, 0] (by decide) (by rfl)

/-- Claim C6: for a GetBulkRequest packet, `non_repeaters` and
`max_repetitions` are emitted as width-1 Integer TLVs at exactly the byte
positions (offsets 6 and 9 of the PDU buffer, after the 6-byte request-id
TLV) where the error-status and error-index TLVs sit for every other PDU
type. -/
theorem claim_C6_getbulk_header_layout (p q : SnmpPacket) (pdus : List SnmpPDU)
    (rid : Nat) (vbl : List Nat) (hp : p.PDUType = GetBulkRequest)
    (hq : q.PDUType ≠ GetBulkRequest) (hvbl : marshalVBL pdus = .ok vbl) :
    marshalPDU p pdus rid =
      .ok (GetBulkRequest :: marshalLength (12 + vbl.length)
           ++ ([Integer, 4] ++ be32 rid
               ++ [Integer, 1, p.NonRepeaters, Integer, 1, p.MaxRepetitions] ++ vbl)) ∧
    (∀ bufP, marshalPDUbuf p pdus rid = .ok bufP →
      (bufP.drop 6).take 3 = [Integer, 1, p.NonRepeaters] ∧
      (bufP.drop 9).take 3 = [Integer, 1, p.MaxRepetitions]) ∧
    (∀ bufQ, marshalPDUbuf q pdus rid = .ok bufQ →
      (bufQ.drop 6).take 3 = [Integer, 1, 0] ∧
      (bufQ.drop 9).take 3 = [Integer, 1, 0]) := by
  refine ⟨?_, ?_, ?_⟩
  · unfold marshalPDU marshalPDUbuf
    rw [hvbl]
    simp only [if_pos hp]
    have hlen : ([Integer, 4] ++ be32 rid
        ++ [Integer, 1, p.NonRepeaters, Integer, 1, p.MaxRepetitions] ++ vbl).length
        = 12 + vbl.length := by
      simp [be32]; omega
    rw [hlen, hp]
  · intro bufP hbufP
    unfold marshalPDUbuf at hbufP
    rw [hvbl] at hbufP
    simp only [if_pos hp] at hbufP
    cases hbufP
    constructor <;> simp [be32]
  · intro bufQ hbufQ
    unfold marshalPDUbuf at hbufQ
    rw [hvbl] at hbufQ
    simp only [if_neg hq] at hbufQ
    cases hbufQ
    constructor <;> simp [be32]

/-- Witness for claim C6 at a concrete GetBulk packet with non_repeaters 2
and max_repetitions 10 (the spec's S3 scenario shape). -/
theorem claim_C6_getbulk_header_layout_witness :
    marshalPDU ⟨1, [], GetBulkRequest, 0, 0, 0, 2, 10, []⟩ [] 1 =
      .ok ((GetBulkRequest : Nat) :: marshalLength (12 + [Sequence, 0].length)
           ++ ([Integer, 4] ++ be32 1 ++ [Integer, 1, 2, Integer, 1, 10] ++ [Sequence, 0])) :=
  (claim_C6_getbulk_header_layout ⟨1, [], GetBulkRequest, 0, 0, 0, 2, 10, []⟩
    ⟨1, [], GetRequest, 0, 0, 0, 0, 0, []⟩ [] 1 [Sequence, 0] (by rfl) (by decide)
    (by rfl)).1

/-- For nonnegative `p` and `1 ≤ s`, the successor position is a multiple of
`s` exactly when `p` leaves remainder `s - 1`. -/
theorem emod_succ_eq_zero_iff (p s : Int) (_hp : 0 ≤ p) (hs : 1 ≤ s) :
    (p + 1) % s = 0 ↔ p % s = s - 1 := by
  have hnn : 0 ≤ p % s := Int.emod_nonneg p (by omega)
  have hlt : p % s < s := Int.emod_lt_of_pos p (by omega)
  by_cases hs1 : s = 1
  · subst hs1; simp [Int.emod_one]
  · have h1 : (1 : Int) % s = 1 := Int.emod_eq_of_lt (by omega) (by omega)
    rw [Int.add_emod, h1]
    constructor
    · intro h
      by_contra hne
      rw [Int.emod_eq_of_lt (by omega) (by omega)] at h
      omega
    · intro h
      rw [h]
      simp

/-- Claim C8, counterexample: at position 5, size 3, total 4 the claimed
condition `(position + 1) mod size = 0` holds, yet Partition returns false
(the position is outside `[0, total)`). -/
theorem claim_C8_counterexample :
    Partition 5 3 4 = some false ∧ ((5 : Int) + 1) % 3 = 0 := by
  refine ⟨by rfl, by decide⟩

/-- Claim C8, amended: for every positive size, Partition(position, size,
total) returns true exactly when the position lies in `[0, total)` and is
either the final position `total - 1` or satisfies
`(position + 1) mod size = 0`; for every position outside `[0, total)` it
returns false, and it never reaches the division-by-zero branch. -/
theorem claim_C8_partition_boundaries (p s n : Int) (hs : 1 ≤ s) :
    (Partition p s n = some true ↔
      0 ≤ p ∧ p < n ∧ (p = n - 1 ∨ (p + 1) % s = 0)) ∧
    Partition p s n ≠ none := by
  unfold Partition
  by_cases hout : p < 0 ∨ p ≥ n
  · rw [if_pos hout]
    constructor
    · constructor
      · intro h; cases h
      · intro h; omega
    · intro h; cases h
  · rw [if_neg hout]
    push_neg at hout
    by_cases hs1 : s = 1
    · rw [if_pos hs1]
      subst hs1
      constructor
      · constructor
        · intro _; exact ⟨by omega, by omega, Or.inr (by simp [Int.emod_one])⟩
        · intro _; rfl
      · intro h; cases h
    · rw [if_neg hs1, if_neg (show ¬s = 0 by omega),
        Int.tmod_eq_emod (by omega) (by omega)]
      have hiff := emod_succ_eq_zero_iff p s (by omega) hs
      by_cases hmod : p % s = s - 1
      · rw [if_pos hmod]
        constructor
        · constructor
          · intro _; exact ⟨by omega, by omega, Or.inr (hiff.mpr hmod)⟩
          · intro _; rfl
        · intro h; cases h
      · rw [if_neg hmod]
        by_cases hlast : p = n - 1
        · rw [if_pos hlast]
          constructor
          · constructor
            · intro _; exact ⟨by omega, by omega, Or.inl hlast⟩
            · intro _; rfl
          · intro h; cases h
        · rw [if_neg hlast]
          constructor
          · constructor
            · intro h; cases h
            · rintro ⟨-, -, h | h⟩
              · exact absurd h hlast
              · exact absurd (hiff.mp h) hmod
          · intro h; cases h

/-- Witness for the amended claim C8 on the source's own doc-comment example
(slice of 8, partitions of 3, position 5). -/
theorem claim_C8_partition_boundaries_witness :
    Partition 5 3 8 = some true ↔
      (0 : Int) ≤ 5 ∧ (5 : Int) < 8 ∧ ((5 : Int) = 8 - 1 ∨ ((5 : Int) + 1) % 3 = 0) :=
  (claim_C8_partition_boundaries 5 3 8 (by decide)).1

/-- Claim C9: the guard of Partition excludes only out-of-range positions
(and the size-1 shortcut), not a zero size; for size 0 every in-range
position reaches `currentPosition % partitionSize`, whose division by zero
panics (modelled as `none`), while out-of-range positions short-circuit to
false before the division. -/
theorem claim_C9_partition_div_by_zero :
    (∀ p n : Int, 0 ≤ p → p < n → Partition p 0 n = none) ∧
    (∀ p n : Int, p < 0 ∨ n ≤ p → Partition p 0 n = some false) := by
  constructor
  · intro p n h0 hn
    unfold Partition
    rw [if_neg (by omega), if_neg (by decide), if_pos rfl]
  · intro p n h
    unfold Partition
    rw [if_pos (by omega)]

/-- Witness for claim C9 at in-range and out-of-range concrete positions. -/
theorem claim_C9_partition_div_by_zero_witness :
    Partition 2 0 5 = none ∧ Partition 7 0 5 = some false :=
  ⟨claim_C9_partition_div_by_zero.1 2 5 (by decide) (by decide),
   claim_C9_partition_div_by_zero.2 7 5 (Or.inr (by decide))⟩

/-- Every deadline recorded by the retry loop equals the iteration's
observation time plus `timeout / (retries + 1)`; moreover every iteration
with index at least 1 starts no later than the absolute deadline. -/
theorem sendAttempts_deadline_shape (xR timeout finalDl : Nat) (p : SnmpPacket)
    (pdus : List SnmpPDU) :
    ∀ atts k c ids le td,
      td ∈ (sendAttempts xR timeout finalDl p pdus k c ids le atts).deadlines →
      td.2 = td.1 + timeout / (xR + 1) ∧ (1 ≤ k → td.1 ≤ finalDl) := by
  intro atts
  induction atts with
  | nil =>
    intro k c ids le td h
    simp [sendAttempts] at h
  | cons a rest ih =>
    obtain ⟨t, outc⟩ := a
    intro k c ids le td h
    rw [sendAttempts] at h
    by_cases h1 : 0 < k ∧ finalDl < t
    · rw [if_pos h1] at h; simp at h
    · rw [if_neg h1] at h
      by_cases h2 : 0 < k ∧ xR < k
      · rw [if_pos h2] at h; simp at h
      · rw [if_neg h2] at h
        simp only at h
        have hside : td = (t, t + timeout / (xR + 1)) →
            td.2 = td.1 + timeout / (xR + 1) ∧ (1 ≤ k → td.1 ≤ finalDl) := by
          rintro rfl
          exact ⟨rfl, fun hk => by show t ≤ finalDl; omega⟩
        have hrec : ∀ le', td ∈ (sendAttempts xR timeout finalDl p pdus (k + 1)
              ((c + 1) % 4294967296) (ids ++ [(c + 1) % 4294967296]) le' rest).deadlines →
            td.2 = td.1 + timeout / (xR + 1) ∧ (1 ≤ k → td.1 ≤ finalDl) := by
          intro le' hm
          have := ih (k + 1) _ _ le' td hm
          exact ⟨this.1, fun _ => this.2 (by omega)⟩
        cases hmm : marshalMsg p pdus p.PDUType ((c + 1) % 4294967296) with
        | error e =>
          rw [hmm] at h
          cases e <;> simp at h <;> exact hside h
        | ok b =>
          rw [hmm] at h
          cases outc with
          | writeErr =>
            simp at h
            rcases h with h | h
            exacts [hside h, hrec _ h]
          | readErr =>
            simp at h
            rcases h with h | h
            exacts [hside h, hrec _ h]
          | decodeErr =>
            simp at h
            rcases h with h | h
            exacts [hside h, hrec _ h]
          | reply pkt =>
            simp at h
            split_ifs at h with hv hid
            · simp at h
              rcases h with h | h
              exacts [hside h, hrec _ h]
            · simp at h
              exact hside h
            · simp at h
              rcases h with h | h
              exacts [hside h, hrec _ h]

/-- Claim C4, counterexample: with timeout 2000 and retries 1, a second
attempt observed at time 1999 (within the absolute deadline 2000) sets the
transport deadline to 1999 + 2000/2 = 2999, which is not the claimed
min(1999 + 2000/2, 2000) = 2000: the per-attempt deadline extends 999 past
the absolute deadline. -/
theorem claim_C4_counterexample :
    (send 2000 1 10 [] ⟨1, [], GetRequest, 0, 0, 0, 0, 0, []⟩
        ⟨0, true, [(0, .readErr), (1999, .readErr), (2500, .readErr)]⟩).deadlines =
      [(0, 1000), (1999, 2999)] ∧
    min (1999 + 2000 / (1 + 1)) (0 + 2000) = 2000 ∧ (2999 : Nat) ≠ 2000 := by
  refine ⟨by rfl, by decide, by decide⟩

/-- Claim C4, amended: every deadline the transaction loop passes to
SetDeadline equals the attempt's observation time plus
`timeout / (retries + 1)` (retries clamped at 0), with no clipping to the
absolute deadline; every retry attempt (all deadline entries after the
first) is observed no later than the absolute deadline `t0 + timeout`, so a
per-attempt deadline can exceed the absolute deadline by at most one
per-attempt quantum. -/
theorem claim_C4_deadline_unclipped (timeout : Nat) (retries : Int) (c0 : Nat)
    (pdus : List SnmpPDU) (p : SnmpPacket) (env : SendEnv) :
    (∀ td ∈ (send timeout retries c0 pdus p env).deadlines,
       td.2 = td.1 + timeout / ((if retries < 0 then (0 : Nat) else retries.toNat) + 1)) ∧
    (∀ td ∈ ((send timeout retries c0 pdus p env).deadlines).tail,
       td.1 ≤ env.t0 + timeout) := by
  unfold send
  by_cases hc : env.hasConn = false
  · rw [if_pos hc]
    constructor <;> intro td h <;> simp at h
  · rw [if_neg hc]
    constructor
    · intro td h
      exact (sendAttempts_deadline_shape _ _ _ _ _ env.attempts 0 c0 [] none td h).1
    · intro td h
      generalize (if retries < 0 then (0 : Nat) else retries.toNat) = xR at h
      cases hatts : env.attempts with
      | nil => rw [hatts] at h; simp [sendAttempts] at h
      | cons a rest =>
        obtain ⟨t, outc⟩ := a
        rw [hatts] at h
        rw [sendAttempts] at h
        rw [if_neg (by omega), if_neg (by omega)] at h
        simp only at h
        have hrec : ∀ le', td ∈ (sendAttempts xR timeout
              (env.t0 + timeout) p pdus 1 ((c0 + 1) % 4294967296)
              [(c0 + 1) % 4294967296] le' rest).deadlines →
            td.1 ≤ env.t0 + timeout := by
          intro le' hm
          exact (sendAttempts_deadline_shape _ _ _ _ _ rest 1 _ _ le' td hm).2 (by omega)
        cases hmm : marshalMsg p pdus p.PDUType ((c0 + 1) % 4294967296) with
        | error e =>
          rw [hmm] at h
          cases e <;> simp at h
        | ok b =>
          rw [hmm] at h
          cases outc with
          | writeErr => simp at h; exact hrec _ h
          | readErr => simp at h; exact hrec _ h
          | decodeErr => simp at h; exact hrec _ h
          | reply pkt =>
            simp at h
            split_ifs at h with hv hid
            · simp at h; exact hrec _ h
            · simp at h
            · simp at h; exact hrec _ h

/-- Witness for the amended claim C4 at a concrete environment. -/
theorem claim_C4_deadline_unclipped_witness :
    ((1999 : Nat), (2999 : Nat)).2 =
      ((1999 : Nat), (2999 : Nat)).1 + 2000 / ((if (1 : Int) < 0 then (0 : Nat) else (1 : Int).toNat) + 1) :=
  (claim_C4_deadline_unclipped 2000 1 10 [] ⟨1, [], GetRequest, 0, 0, 0, 0, 0, []⟩
      ⟨0, true, [(0, .readErr), (1999, .readErr), (2500, .readErr)]⟩).1
    (1999, 2999) (by rw [show (send 2000 1 10 [] ⟨1, [], GetRequest, 0, 0, 0, 0, 0, []⟩
      ⟨0, true, [(0, .readErr), (1999, .readErr), (2500, .readErr)]⟩).deadlines =
        [(0, 1000), (1999, 2999)] from rfl]; simp)

/-- Whenever the retry loop returns a decoded packet, that packet's
request ID is among the request IDs issued by the call. -/
theorem sendAttempts_ok_mem (xR timeout finalDl : Nat) (p : SnmpPacket)
    (pdus : List SnmpPDU) :
    ∀ atts k c ids le pkt,
      (sendAttempts xR timeout finalDl p pdus k c ids le atts).result = .ok pkt →
      pkt.RequestID ∈ (sendAttempts xR timeout finalDl p pdus k c ids le atts).reqIDs := by
  intro atts
  induction atts with
  | nil =>
    intro k c ids le pkt h
    simp [sendAttempts] at h
  | cons a rest ih =>
    obtain ⟨t, outc⟩ := a
    intro k c ids le pkt h
    rw [sendAttempts] at h ⊢
    by_cases h1 : 0 < k ∧ finalDl < t
    · rw [if_pos h1] at h; simp at h
    · rw [if_neg h1] at h ⊢
      by_cases h2 : 0 < k ∧ xR < k
      · rw [if_pos h2] at h; simp at h
      · rw [if_neg h2] at h ⊢
        simp only at h ⊢
        cases hmm : marshalMsg p pdus p.PDUType ((c + 1) % 4294967296) with
        | error e =>
          rw [hmm] at h
          cases e <;> simp at h
        | ok b =>
          rw [hmm] at h
          cases outc with
          | writeErr =>
            simp at h ⊢
            exact ih _ _ _ _ _ h
          | readErr =>
            simp at h ⊢
            exact ih _ _ _ _ _ h
          | decodeErr =>
            simp at h ⊢
            exact ih _ _ _ _ _ h
          | reply pkt' =>
            simp at h ⊢
            split_ifs at h ⊢ with hv hid
            · simp at h ⊢
              exact ih _ _ _ _ _ h
            · simp at h ⊢
              subst h
              exact hid
            · simp at h ⊢
              exact ih _ _ _ _ _ h

/-- Claim C5: (1) a decoded response is returned by the transaction engine
only when its request ID is among the IDs issued during that same call;
(2) within one iteration, a reply carrying any previously issued ID of the
call, including an earlier attempt's ID, is accepted and returned; (3) a
reply whose ID matches none of the issued IDs makes the loop continue into
the next attempt with the out-of-order error recorded as the last error. -/
theorem claim_C5_request_id_matching :
    (∀ timeout retries c0 pdus p env pkt,
        (send timeout retries c0 pdus p env).result = .ok pkt →
        pkt.RequestID ∈ (send timeout retries c0 pdus p env).reqIDs) ∧
    (∀ xR timeout finalDl p pdus k c ids le t pkt rest b,
        ¬(0 < k ∧ finalDl < t) → ¬(0 < k ∧ xR < k) →
        marshalMsg p pdus p.PDUType ((c + 1) % 4294967296) = .ok b →
        1 ≤ pkt.Variables.length →
        pkt.RequestID ∈ ids ++ [(c + 1) % 4294967296] →
        (sendAttempts xR timeout finalDl p pdus k c ids le
            ((t, .reply pkt) :: rest)).result = .ok pkt) ∧
    (∀ xR timeout finalDl p pdus k c ids le t pkt rest b,
        ¬(0 < k ∧ finalDl < t) → ¬(0 < k ∧ xR < k) →
        marshalMsg p pdus p.PDUType ((c + 1) % 4294967296) = .ok b →
        1 ≤ pkt.Variables.length →
        pkt.RequestID ∉ ids ++ [(c + 1) % 4294967296] →
        sendAttempts xR timeout finalDl p pdus k c ids le ((t, .reply pkt) :: rest)
          = ⟨(sendAttempts xR timeout finalDl p pdus (k + 1) ((c + 1) % 4294967296)
                (ids ++ [(c + 1) % 4294967296]) (some .outOfOrderErr) rest).result,
             (t, t + timeout / (xR + 1)) ::
               (sendAttempts xR timeout finalDl p pdus (k + 1) ((c + 1) % 4294967296)
                 (ids ++ [(c + 1) % 4294967296]) (some .outOfOrderErr) rest).deadlines,
             (sendAttempts xR timeout finalDl p pdus (k + 1) ((c + 1) % 4294967296)
                (ids ++ [(c + 1) % 4294967296]) (some .outOfOrderErr) rest).reqIDs⟩) := by
  refine ⟨?_, ?_, ?_⟩
  · intro timeout retries c0 pdus p env pkt h
    unfold send at h ⊢
    by_cases hc : env.hasConn = false
    · rw [if_pos hc] at h; simp at h
    · rw [if_neg hc] at h ⊢
      exact sendAttempts_ok_mem _ _ _ _ _ env.attempts 0 c0 [] none pkt h
  · intro xR timeout finalDl p pdus k c ids le t pkt rest b hg1 hg2 hm hv hid
    rw [sendAttempts, if_neg hg1, if_neg hg2]
    simp only
    rw [hm]
    simp only
    rw [if_neg (by omega), if_pos hid]
  · intro xR timeout finalDl p pdus k c ids le t pkt rest b hg1 hg2 hm hv hid
    rw [sendAttempts, if_neg hg1, if_neg hg2]
    simp only
    rw [hm]
    simp only
    rw [if_neg (by omega), if_neg hid]

/-- Witness for claim C5 on the spec's S5 scenario: attempt 1 (issuing
request ID 11) reads nothing, attempt 2 issues ID 12, and the agent's late
reply to ID 11 is accepted; the returned packet's ID 11 is among the
issued IDs. -/
theorem claim_C5_request_id_matching_witness :
    (⟨1, [], GetResponse, 11, 0, 0, 0, 0, [⟨[1, 3], Null, .vNil⟩]⟩ : SnmpPacket).RequestID ∈
      (send 2000 1 10 [] ⟨1, [], GetRequest, 0, 0, 0, 0, 0, []⟩
        ⟨0, true, [(0, .readErr),
          (500, .reply ⟨1, [], GetResponse, 11, 0, 0, 0, 0, [⟨[1, 3], Null, .vNil⟩]⟩)]⟩).reqIDs :=
  claim_C5_request_id_matching.1 2000 1 10 [] ⟨1, [], GetRequest, 0, 0, 0, 0, 0, []⟩
    ⟨0, true, [(0, .readErr),
      (500, .reply ⟨1, [], GetResponse, 11, 0, 0, 0, 0, [⟨[1, 3], Null, .vNil⟩]⟩)]⟩
    ⟨1, [], GetResponse, 11, 0, 0, 0, 0, [⟨[1, 3], Null, .vNil⟩]⟩ (by rfl)

/-- The oid-to-pdu loop of Get/GetNext is a map: appending one Null varbind
per oid, starting from any accumulator, lists them in order. -/
theorem getPdus_foldl_eq (oids : List (List Nat)) :
    ∀ acc : List SnmpPDU,
      oids.foldl (fun pdus oid => pdus ++ [⟨oid, Null, .vNil⟩]) acc
        = acc ++ oids.map (fun oid => ⟨oid, Null, .vNil⟩) := by
  induction oids with
  | nil => intro acc; simp
  | cons o rest ih =>
    intro acc
    simp only [List.foldl_cons, List.map_cons]
    rw [ih]
    simp

/-- Claim C7: (1) Get and GetNext reject a list of more than 60 oids with an
error before any network activity (no deadline is set and no request ID is
issued); (2) otherwise the pdu slice holds exactly one varbind per oid, in
order, each of type Null with the nil value; (3) on the wire such a varbind
carries a zero-length Null value TLV (bytes 5, 0) after its OID TLV. -/
theorem claim_C7_get_oid_limit_null_varbinds :
    (∀ community version timeout retries c0 (oids : List (List Nat)) env,
        maxOids < oids.length →
        Get community version timeout retries c0 oids env = ⟨.err .tooManyOids, [], []⟩ ∧
        GetNext community version timeout retries c0 oids env = ⟨.err .tooManyOids, [], []⟩) ∧
    (∀ oids : List (List Nat),
        getPdus oids = oids.map (fun oid => ⟨oid, Null, .vNil⟩)) ∧
    (∀ oid ob, marshalOID oid = .ok ob →
        marshalVarbind ⟨oid, Null, .vNil⟩ =
          .ok ([Sequence, (ob.length + 4) % 256, ObjectIdentifier, ob.length % 256]
               ++ ob ++ [Null, 0])) := by
  refine ⟨?_, ?_, ?_⟩
  · intro community version timeout retries c0 oids env h
    constructor
    · unfold Get
      rw [if_pos h]
    · unfold GetNext
      rw [if_pos h]
  · intro oids
    unfold getPdus
    simpa using getPdus_foldl_eq oids []
  · intro oid ob h
    unfold marshalVarbind
    simp only
    rw [h]
    simp

/-- Witness for claim C7: 61 oids are rejected; a singleton oid list maps to
one Null varbind; the wire form of the Null varbind of OID 1.3. -/
theorem claim_C7_get_oid_limit_null_varbinds_witness :
    Get [] 1 2000 1 10 (List.replicate 61 [1, 3]) ⟨0, true, [(0, .readErr)]⟩
      = ⟨.err .tooManyOids, [], []⟩ ∧
    marshalVarbind ⟨[1, 3], Null, .vNil⟩ =
      .ok ([Sequence, ([43].length + 4) % 256, ObjectIdentifier, [43].length % 256]
           ++ [43] ++ [Null, 0]) :=
  ⟨(claim_C7_get_oid_limit_null_varbinds.1 [] 1 2000 1 10
      (List.replicate 61 [1, 3]) ⟨0, true, [(0, .readErr)]⟩ (by decide)).1,
   claim_C7_get_oid_limit_null_varbinds.2.2 [1, 3] [43] (by rfl)⟩

/-- A varbind whose marshalling panics makes the whole message marshalling
panic. -/
theorem marshalMsg_panic (p : SnmpPacket) (pdu : SnmpPDU) (pt rid : Nat)
    (h : marshalVarbind pdu = .error .mPanic) :
    marshalMsg p [pdu] pt rid = .error .mPanic := by
  unfold marshalMsg marshalPDU marshalPDUbuf marshalVBL marshalVBLloop
  rw [h]

/-- Claim C10: (1) marshalling a varbind whose static type is Integer but
whose dynamic value is not a Go `int` (e.g. int64, uint32, or nil) reaches
the unchecked type assertion and panics; (2) invoked through Set — whose
shape checks inspect only the slice length and the static type field — the
panic is recovered by the transaction engine and surfaced as the generic
recover error, the deadline having been set and the request ID issued for
the failed attempt; (3) that result is the recover error, not the marshal
error nor the unsupported-set error. -/
theorem claim_C10_set_panic_recovered :
    (∀ name ob v, marshalOID name = .ok ob → (∀ i, v ≠ GoValue.vInt i) →
        marshalVarbind ⟨name, Integer, v⟩ = .error .mPanic) ∧
    (∀ community version timeout (retries : Int) c0 name ob v t0 t outc rest,
        marshalOID name = .ok ob → (∀ i, v ≠ GoValue.vInt i) →
        Set community version timeout retries c0 [⟨name, Integer, v⟩]
            ⟨t0, true, (t, outc) :: rest⟩ =
          ⟨.err .recoverPanic,
           [(t, t + timeout / ((if retries < 0 then (0 : Nat) else retries.toNat) + 1))],
           [(c0 + 1) % 4294967296]⟩) ∧
    (∀ e, SendErr.recoverPanic ≠ SendErr.marshalErr e) ∧
    SendErr.recoverPanic ≠ SendErr.setLenErr ∧
    SendErr.recoverPanic ≠ SendErr.setTypeErr := by
  have hpanic : ∀ name ob v, marshalOID name = .ok ob → (∀ i, v ≠ GoValue.vInt i) →
      marshalVarbind ⟨name, Integer, v⟩ = .error .mPanic := by
    intro name ob v hob hv
    unfold marshalVarbind
    simp only
    rw [hob]
    cases v with
    | vNil => rfl
    | vInt i => exact absurd rfl (hv i)
    | vInt64 i => rfl
    | vUint32 n => rfl
  refine ⟨hpanic, ?_, ?_, ?_, ?_⟩
  · intro community version timeout retries c0 name ob v t0 t outc rest hob hv
    have hp := hpanic name ob v hob hv
    unfold Set
    rw [if_neg (by simp)]
    rw [if_neg (by simp)]
    unfold send
    rw [if_neg (by simp)]
    simp only
    rw [sendAttempts]
    rw [if_neg (by omega), if_neg (by omega)]
    simp only
    rw [marshalMsg_panic _ _ _ _ hp]
    rfl
  · intro e h
    cases h
  · intro h
    cases h
  · intro h
    cases h

/-- Witness for claim C10 with an int64-valued Integer varbind. -/
theorem claim_C10_set_panic_recovered_witness :
    marshalVarbind ⟨[1, 3], Integer, .vInt64 5⟩ = .error .mPanic ∧
    Set [] 1 2000 1 10 [⟨[1, 3], Integer, .vInt64 5⟩] ⟨0, true, [(0, .readErr)]⟩ =
      ⟨.err .recoverPanic,
       [(0, 0 + 2000 / ((if (1 : Int) < 0 then (0 : Nat) else (1 : Int).toNat) + 1))],
       [(10 + 1) % 4294967296]⟩ :=
  ⟨claim_C10_set_panic_recovered.1 [1, 3] [43] (.vInt64 5) (by rfl) (fun i h => by cases h),
   claim_C10_set_panic_recovered.2.1 [] 1 2000 1 10 [1, 3] [43] (.vInt64 5) 0 0
     .readErr [] (by rfl) (fun i h => by cases h)⟩

/-! ## TLV length exactness (claim C3) -/

/-- Bound under which the single-byte truncated length fields written by
marshalVarbind and marshalMsg are exact: the encoded OID plus the varbind
overhead must fit one byte. -/
def oidBoundOK (pdu : SnmpPDU) : Bool :=
  match marshalOID pdu.Name with
  | .ok ob => decide (ob.length + 5 < 256)
  | .error _ => true

/-- A length field `lb` denoting payload byte count `n`: either one byte
holding `n` itself, or a marshalLength encoding of `n` (exact by
construction). -/
inductive LenField : List Nat → Nat → Prop where
  | single (n : Nat) : n < 256 → LenField [n] n
  | viaMarshal (n : Nat) : LenField (marshalLength n) n

/-- Transport a LenField along an equality of denoted counts. -/
theorem LenField.of_eq {lb : List Nat} {n m : Nat} (h : LenField lb n) (e : n = m) :
    LenField lb m := e ▸ h

/-- Constructed tags whose payload is itself a TLV stream: Sequence and the
PDU classes 0xa0–0xa5. -/
def isConstructed (t : Nat) : Bool :=
  decide (t = Sequence ∨ (0xa0 ≤ t ∧ t ≤ 0xa5))

/-- A byte stream that parses as a sequence of TLVs, each of whose length
fields equals the exact byte count of its value payload — recursively so
inside every constructed tag. -/
inductive TLVs : List Nat → Prop where
  | nil : TLVs []
  | leaf (t : Nat) (lb payload rest : List Nat) :
      isConstructed t = false → LenField lb payload.length → TLVs rest →
      TLVs (t :: lb ++ payload ++ rest)
  | node (t : Nat) (lb payload rest : List Nat) :
      isConstructed t = true → LenField lb payload.length →
      TLVs payload → TLVs rest →
      TLVs (t :: lb ++ payload ++ rest)

/-- Concatenation of exact TLV streams is an exact TLV stream. -/
theorem TLVs.append {a b : List Nat} (ha : TLVs a) (hb : TLVs b) : TLVs (a ++ b) := by
  induction ha with
  | nil => simpa using hb
  | leaf t lb payload rest hc hlf _ ih =>
    have h2 := TLVs.leaf t lb payload (rest ++ b) hc hlf ih
    simpa [List.append_assoc] using h2
  | node t lb payload rest hc hlf hpay _ ihp ihr =>
    have h2 := TLVs.node t lb payload (rest ++ b) hc hlf hpay ihr
    simpa [List.append_assoc] using h2

/-- A single primitive TLV is an exact TLV stream. -/
theorem TLVs.leaf1 (t : Nat) (lb payload : List Nat) (hc : isConstructed t = false)
    (h : LenField lb payload.length) : TLVs (t :: lb ++ payload) := by
  simpa using TLVs.leaf t lb payload [] hc h TLVs.nil

/-- A single constructed TLV with an exact TLV stream inside is an exact
TLV stream. -/
theorem TLVs.node1 (t : Nat) (lb payload : List Nat) (hc : isConstructed t = true)
    (h : LenField lb payload.length) (hp : TLVs payload) : TLVs (t :: lb ++ payload) := by
  simpa using TLVs.node t lb payload [] hc h hp TLVs.nil

/-- Every varbind marshalVarbind emits, with its encoded OID under the
one-byte length bound, is an exact TLV stream (one varbind Sequence
containing an OID TLV and a value TLV, all lengths exact). -/
theorem marshalVarbind_TLVs (pdu : SnmpPDU) (vb : List Nat)
    (hb : oidBoundOK pdu = true) (h : marshalVarbind pdu = .ok vb) : TLVs vb := by
  unfold marshalVarbind at h
  unfold oidBoundOK at hb
  cases hob : marshalOID pdu.Name with
  | error e => rw [hob] at h; cases h
  | ok ob =>
    rw [hob] at h hb
    simp only at h hb
    have hlen : ob.length + 5 < 256 := of_decide_eq_true hb
    by_cases hN : pdu.Typ = Null
    · rw [if_pos hN] at h
      rw [Nat.mod_eq_of_lt (by omega), Nat.mod_eq_of_lt (by omega)] at h
      injection h with h
      subst h
      have inner2 : TLVs [Null, 0] :=
        TLVs.leaf1 Null [0] [] (by decide) (LenField.single 0 (by omega))
      have inner : TLVs ([ObjectIdentifier, ob.length] ++ ob ++ [Null, 0]) :=
        TLVs.leaf ObjectIdentifier [ob.length] ob [Null, 0] (by decide)
          (LenField.single ob.length (by omega)) inner2
      exact TLVs.node1 Sequence [ob.length + 4]
        ([ObjectIdentifier, ob.length] ++ ob ++ [Null, 0]) (by decide)
        (LenField.of_eq (LenField.single (ob.length + 4) (by omega))
          (by simp [List.length_append])) inner
    · rw [if_neg hN] at h
      by_cases hI : pdu.Typ = Integer
      · rw [if_pos hI] at h
        cases hv : pdu.Value with
        | vInt i =>
          rw [hv] at h
          simp only [List.length_cons, List.length_nil] at h
          rw [Nat.mod_eq_of_lt (show 0 + 1 < 256 by omega),
            Nat.mod_eq_of_lt (show ob.length + (0 + 1) + 4 < 256 by omega),
            Nat.mod_eq_of_lt (show ob.length < 256 by omega)] at h
          injection h with h
          subst h
          rw [List.append_assoc, List.append_assoc]
          have inner2 : TLVs [Integer, 0 + 1, (i % 256).toNat] :=
            TLVs.leaf1 Integer [0 + 1] [(i % 256).toNat] (by decide)
              (LenField.single (0 + 1) (by omega))
          have inner : TLVs ([ObjectIdentifier, ob.length] ++ ob
              ++ [Integer, 0 + 1, (i % 256).toNat]) :=
            TLVs.leaf ObjectIdentifier [ob.length] ob [Integer, 0 + 1, (i % 256).toNat]
              (by decide) (LenField.single ob.length (by omega)) inner2
          exact TLVs.node1 Sequence [ob.length + (0 + 1) + 4]
            ([ObjectIdentifier, ob.length] ++ ob ++ [Integer, 0 + 1, (i % 256).toNat])
            (by decide)
            (LenField.of_eq (LenField.single (ob.length + (0 + 1) + 4) (by omega))
              (by simp [List.length_append])) inner
        | vNil => rw [hv] at h; cases h
        | vInt64 i => rw [hv] at h; cases h
        | vUint32 n => rw [hv] at h; cases h
      · rw [if_neg hI] at h
        cases h

/-- The concatenated varbinds of marshalVBL's loop form an exact TLV
stream. -/
theorem marshalVBLloop_TLVs :
    ∀ (pdus : List SnmpPDU) (bytes : List Nat),
      (∀ pdu ∈ pdus, oidBoundOK pdu = true) →
      marshalVBLloop pdus = .ok bytes → TLVs bytes := by
  intro pdus
  induction pdus with
  | nil =>
    intro bytes _ h
    unfold marshalVBLloop at h
    injection h with h
    subst h
    exact TLVs.nil
  | cons p rest ih =>
    intro bytes hb h
    unfold marshalVBLloop at h
    cases hv : marshalVarbind p with
    | error e => rw [hv] at h; cases h
    | ok vb =>
      rw [hv] at h
      cases hr : marshalVBLloop rest with
      | error e => rw [hr] at h; cases h
      | ok r =>
        rw [hr] at h
        injection h with h
        subst h
        exact TLVs.append (marshalVarbind_TLVs p vb (hb p (by simp)) hv)
          (ih r (fun q hq => hb q (by simp [hq])) hr)

/-- The varbind list emitted by marshalVBL is an exact TLV stream. -/
theorem marshalVBL_TLVs (pdus : List SnmpPDU) (bytes : List Nat)
    (hb : ∀ pdu ∈ pdus, oidBoundOK pdu = true) (h : marshalVBL pdus = .ok bytes) :
    TLVs bytes := by
  unfold marshalVBL at h
  cases hl : marshalVBLloop pdus with
  | error e => rw [hl] at h; cases h
  | ok vbl =>
    rw [hl] at h
    injection h with h
    subst h
    exact TLVs.node1 Sequence (marshalLength vbl.length) vbl (by decide)
      (LenField.viaMarshal vbl.length) (marshalVBLloop_TLVs pdus vbl hb hl)

/-- The PDU bytes emitted by marshalPDU are an exact TLV stream: request-id,
error/non-repeaters, error-index/max-repetitions TLVs and the varbind list,
wrapped under the PDU type byte with a marshalLength length. -/
theorem marshalPDU_TLVs (p : SnmpPacket) (pdus : List SnmpPDU) (rid : Nat)
    (bytes : List Nat) (hb : ∀ pdu ∈ pdus, oidBoundOK pdu = true)
    (h : marshalPDU p pdus rid = .ok bytes) : TLVs bytes := by
  unfold marshalPDU marshalPDUbuf at h
  cases hv : marshalVBL pdus with
  | error e => rw [hv] at h; cases h
  | ok vbl =>
    rw [hv] at h
    injection h with h
    subst h
    have hvbl := marshalVBL_TLVs pdus vbl hb hv
    have hmid : ∀ x y : Nat, TLVs ([Integer, 1, x, Integer, 1, y] ++ vbl) := by
      intro x y
      have h2 : TLVs ([Integer, 1, y] ++ vbl) :=
        TLVs.leaf Integer [1] [y] vbl (by decide) (LenField.single 1 (by omega)) hvbl
      exact TLVs.leaf Integer [1] [x] ([Integer, 1, y] ++ vbl) (by decide)
        (LenField.single 1 (by omega)) h2
    have hbuf : TLVs ([Integer, 4] ++ be32 rid
        ++ (if p.PDUType = GetBulkRequest then
              [Integer, 1, p.NonRepeaters, Integer, 1, p.MaxRepetitions]
            else [Integer, 1, 0, Integer, 1, 0]) ++ vbl) := by
      by_cases hbulk : p.PDUType = GetBulkRequest
      · rw [if_pos hbulk]
        exact TLVs.leaf Integer [4] (be32 rid) _ (by decide)
          (LenField.single 4 (by decide)) (hmid _ _)
      · rw [if_neg hbulk]
        exact TLVs.leaf Integer [4] (be32 rid) _ (by decide)
          (LenField.single 4 (by decide)) (hmid _ _)
    by_cases hcon : isConstructed p.PDUType = true
    · exact TLVs.node1 p.PDUType (marshalLength _) _ hcon (LenField.viaMarshal _) hbuf
    · exact TLVs.leaf1 p.PDUType (marshalLength _) _ (by simpa using hcon)
        (LenField.viaMarshal _)

set_option maxRecDepth 8000 in
/-- Claim C3, counterexample: for a packet whose community string is 256
bytes long, marshalMsg still succeeds but the community OctetString TLV's
single length byte is `uint8(256) = 0`, not the payload byte count 256: the
bytes at offsets 7 and 8 are the tag 0x04 and the length 0, followed by the
256 payload bytes. -/
theorem claim_C3_counterexample :
    (((marshalMsg ⟨1, List.replicate 256 97, GetRequest, 0, 0, 0, 0, 0, []⟩
        [] GetRequest 0).toOption.getD []).drop 7).take 2 = [OctetString, 0] ∧
    ((((marshalMsg ⟨1, List.replicate 256 97, GetRequest, 0, 0, 0, 0, 0, []⟩
        [] GetRequest 0).toOption.getD []).drop 9).take 256 = List.replicate 256 97) ∧
    (List.replicate 256 97).length = 256 ∧ (0 : Nat) ≠ 256 := by
  refine ⟨by rfl, by rfl, by rfl, by decide⟩

/-- Claim C3, amended: for every packet and varbind list accepted by
marshalMsg whose community string is under 256 bytes and whose varbinds'
encoded OIDs each fit the one-byte varbind length field (encoded OID at
most 250 bytes), every TLV in the produced byte sequence — outer Sequence,
version Integer, community OctetString, PDU wrapper, request-id and
error/bulk TLVs, varbind-list Sequence, each varbind Sequence, OID and
value TLVs — has a length field equal to the exact byte count of its value
payload (the marshalLength-encoded wrapper lengths are exact for all sizes;
the single-byte community and varbind length fields truncate modulo 256 and
are exact only under these bounds). -/
theorem claim_C3_tlv_lengths_exact (p : SnmpPacket) (pdus : List SnmpPDU)
    (pt rid : Nat) (out : List Nat) (hc : p.Community.length < 256)
    (hb : ∀ pdu ∈ pdus, oidBoundOK pdu = true)
    (h : marshalMsg p pdus pt rid = .ok out) : TLVs out := by
  unfold marshalMsg at h
  cases hp : marshalPDU p pdus rid with
  | error e => rw [hp] at h; cases h
  | ok pdu =>
    rw [hp] at h
    simp only at h
    injection h with h
    subst h
    rw [Nat.mod_eq_of_lt hc]
    have hpdu := marshalPDU_TLVs p pdus rid pdu hb hp
    have hcomm : TLVs ([OctetString, p.Community.length] ++ p.Community ++ pdu) :=
      TLVs.leaf OctetString [p.Community.length] p.Community pdu (by decide)
        (LenField.single _ hc) hpdu
    have hbuf : TLVs ([Integer, 1, p.Version]
        ++ ([OctetString, p.Community.length] ++ p.Community ++ pdu)) :=
      TLVs.leaf Integer [1] [p.Version] _ (by decide)
        (LenField.single 1 (by omega)) hcomm
    exact TLVs.node1 Sequence (marshalLength _) _ (by decide)
      (LenField.viaMarshal _) hbuf

set_option maxRecDepth 8000 in
/-- Witness for the amended claim C3 on the spec's S1 scenario bytes. -/
theorem claim_C3_tlv_lengths_exact_witness :
    TLVs [48, 41, 2, 1, 1, 4, 6, 112, 117, 98, 108, 105, 99, 160, 28, 2, 4, 0, 0, 0, 1,
      2, 1, 0, 2, 1, 0, 48, 14, 48, 12, 6, 8, 43, 6, 1, 2, 1, 1, 1, 0, 5, 0] :=
  claim_C3_tlv_lengths_exact
    ⟨1, [112, 117, 98, 108, 105, 99], GetRequest, 0, 0, 0, 0, 0, []⟩
    [⟨[1, 3, 6, 1, 2, 1, 1, 1, 0], Null, .vNil⟩] GetRequest 1
    [48, 41, 2, 1, 1, 4, 6, 112, 117, 98, 108, 105, 99, 160, 28, 2, 4, 0, 0, 0, 1,
      2, 1, 0, 2, 1, 0, 48, 14, 48, 12, 6, 8, 43, 6, 1, 2, 1, 1, 1, 0, 5, 0]
    (by decide) (by decide) (by rfl)

end Gosnmp
